import Mathlib

/-!
Verification of the chunk-framing compression decoders of `compressioncodec.go`
(package orc): the `CompressionNone`, `CompressionZlib` and `CompressionSnappy`
codecs' `Decoder` sides.

Byte sources are modelled as in-memory `bytes.Reader` values (a list of the
remaining bytes); `io.LimitReader`, the two decoder state machines
(`CompressionZlibDecoder`, `CompressionSnappyDecoder`), and the block decoder of
the github.com/golang/snappy dependency are embedded as executable functions.
The raw-DEFLATE decompressor (`compress/flate`) is an external dependency whose
internals are out of scope; its reader is modelled parameterically by a pure
decompression function (see `flateReaderRead`).

Machine integers: all Go integer values arising here (`uint32` header values,
`int` lengths, varint values guarded to fit 32 bits) stay far below their
overflow bounds along every reachable path, so they are modelled as `Nat`.
-/

namespace Orc

/-- A byte sequence; on-disk bytes satisfy `b < 256`. -/
abbrev Bytes := List Nat

/-- The Go error values observable through this code: `io.EOF`,
`snappy.ErrCorrupt`, and golang/snappy's `errUnsupportedLiteralLength`
(the only errors the modelled readers can produce). -/
inductive GoErr where
  | eof
  | errCorrupt
  | errUnsupportedLiteral
deriving DecidableEq, Repr

/-- `bytes.Reader.Read`: delivers `min cap remaining` bytes, and returns
`io.EOF` (with no bytes) exactly when no bytes remain. -/
def bytesReaderRead (s : Bytes) (cap : Nat) : Bytes × Bytes × Option GoErr :=
  if s.isEmpty then ([], s, some .eof)
  else (s.take cap, s.drop cap, none)

/-- `io.LimitReader(r, n).Read` over a `bytes.Reader` source: at most `n`
bytes total; reports `io.EOF` once the limit is exhausted. -/
def limitReaderRead (n : Nat) (s : Bytes) (cap : Nat) :
    Bytes × Nat × Bytes × Option GoErr :=
  if n = 0 then ([], n, s, some .eof)
  else
    let r := bytesReaderRead s (min cap n)
    (r.1, n - r.1.length, r.2.1, r.2.2)

/-- `binary.LittleEndian.Uint32` on a 4-byte buffer. For byte values
(`< 256`) the positional sum below coincides with the bitwise-or/shift
composition used by `encoding/binary`. -/
def uint32LE (b0 b1 b2 b3 : Nat) : Nat :=
  b0 + b1 * 256 + b2 * 65536 + b3 * 16777216

/-- The 32-bit header value obtained from the 4-byte header buffer:
`header` is zero-initialized and `Read` fills its first `min 3 available`
bytes, so missing bytes read as 0. `taken` is the list of bytes actually
copied into the buffer. -/
def parseHeaderVal (taken : Bytes) : Nat :=
  uint32LE (taken.getD 0 0) (taken.getD 1 0) (taken.getD 2 0) 0

/-! ### golang/snappy block decoding (dependency of the Snappy decoder) -/

/-- `encoding/binary.Uvarint` loop: accumulator `x`, shift `s`, index `i`.
Returns `(value, bytesRead)`; `bytesRead = 0` means the buffer ended
mid-varint, negative means overflow (`MaxVarintLen64 = 10`). -/
def uvarintLoop : Bytes → Nat → Nat → Nat → Nat × Int
  | [], _, _, _ => (0, 0)
  | b :: rest, x, s, i =>
    if i = 10 then (0, -(Int.ofNat i + 1))
    else if b < 128 then
      if i = 9 ∧ 1 < b then (0, -(Int.ofNat i + 1))
      else (x ||| b <<< s, Int.ofNat i + 1)
    else uvarintLoop rest (x ||| (b &&& 127) <<< s) (s + 7) (i + 1)

/-- `encoding/binary.Uvarint`. -/
def uvarint (buf : Bytes) : Nat × Int := uvarintLoop buf 0 0 0

/-- golang/snappy `decodedLen`: the varint-decoded block length and the
varint's byte count; `ErrCorrupt` when the varint is malformed or the value
exceeds `0xffffffff`. (The 32-bit-platform `ErrTooLarge` branch is dead
under the 64-bit `int` model and is omitted.) -/
def decodedLen (src : Bytes) : Except GoErr (Nat × Nat) :=
  let v := (uvarint src).1
  let n := (uvarint src).2
  if n ≤ 0 ∨ 4294967295 < v then .error .errCorrupt
  else .ok (v, n.toNat)

/-- The match-copy loop of golang/snappy `decode`
(`for end := d + length; d != end; d++ { dst[d] = dst[d-offset] }`):
appends `length` bytes, each read `offset` positions back from the write
cursor; the caller has checked `0 < offset ≤ dst.length`, so every read is
of an already-written byte. -/
def snappyCopy (dst : Bytes) (offset : Nat) : Nat → Bytes
  | 0 => dst
  | length + 1 => snappyCopy (dst ++ [dst.getD (dst.length - offset) 0]) offset length

/-- golang/snappy `decode` (decode_other.go): the tag-dispatch loop over
`src` (the post-varint bytes), with `s` the source cursor and `dst` the
written destination prefix (the Go code preallocates `dLen` bytes but
writes strictly left to right and reads only below the write cursor, so
the written prefix is the whole state). Result codes: `0` success,
`1` corrupt, `2` unsupported literal length. The fuel argument only bounds
the recursion: every iteration advances `s` by at least one, so any fuel
`≥ src.length + 1` is enough and the fuel-exhausted branch is unreachable
from `snappyDecode`. -/
def snappyDecodeLoop (src : Bytes) (dLen : Nat) :
    Nat → Nat → Bytes → Nat × Bytes
  | 0, _, dst => (1, dst)
  | fuel + 1, s, dst =>
    if s < src.length then
      let b := src.getD s 0
      if b &&& 3 = 0 then
        -- tagLiteral
        let step : Option (Nat × Nat) :=
          if b >>> 2 < 60 then some (s + 1, b >>> 2)
          else if b >>> 2 = 60 then
            if src.length < s + 2 then none
            else some (s + 2, src.getD (s + 1) 0)
          else if b >>> 2 = 61 then
            if src.length < s + 3 then none
            else some (s + 3, src.getD (s + 1) 0 ||| src.getD (s + 2) 0 <<< 8)
          else if b >>> 2 = 62 then
            if src.length < s + 4 then none
            else some (s + 4,
              src.getD (s + 1) 0 ||| src.getD (s + 2) 0 <<< 8 ||| src.getD (s + 3) 0 <<< 16)
          else
            if src.length < s + 5 then none
            else some (s + 5,
              src.getD (s + 1) 0 ||| src.getD (s + 2) 0 <<< 8 ||| src.getD (s + 3) 0 <<< 16 |||
                src.getD (s + 4) 0 <<< 24)
        match step with
        | none => (1, dst)
        | some (s', x) =>
          let length := x + 1
          -- `length <= 0` (errUnsupportedLiteralLength) cannot fire with 64-bit ints
          if length = 0 then (2, dst)
          else if dLen - dst.length < length ∨ src.length - s' < length then (1, dst)
          else snappyDecodeLoop src dLen fuel (s' + length) (dst ++ (src.drop s').take length)
      else
        let step : Option (Nat × Nat × Nat) :=
          if b &&& 3 = 1 then
            -- tagCopy1
            if src.length < s + 2 then none
            else some (s + 2, 4 + (b >>> 2 &&& 7), (b &&& 224) <<< 3 ||| src.getD (s + 1) 0)
          else if b &&& 3 = 2 then
            -- tagCopy2
            if src.length < s + 3 then none
            else some (s + 3, 1 + b >>> 2, src.getD (s + 1) 0 ||| src.getD (s + 2) 0 <<< 8)
          else
            -- tagCopy4
            if src.length < s + 5 then none
            else some (s + 5, 1 + b >>> 2,
              src.getD (s + 1) 0 ||| src.getD (s + 2) 0 <<< 8 ||| src.getD (s + 3) 0 <<< 16 |||
                src.getD (s + 4) 0 <<< 24)
        match step with
        | none => (1, dst)
        | some (s', length, offset) =>
          if offset = 0 ∨ dst.length < offset ∨ dLen - dst.length < length then (1, dst)
          else snappyDecodeLoop src dLen fuel s' (snappyCopy dst offset length)
    else
      if dst.length = dLen then (0, dst) else (1, dst)

/-- golang/snappy `Decode(nil, src)`: decode the length header, then run the
block decode into a fresh destination of that length. -/
def snappyDecode (src : Bytes) : Except GoErr Bytes :=
  match decodedLen src with
  | .error e => .error e
  | .ok (dLen, s) =>
    let body := src.drop s
    match snappyDecodeLoop body dLen (body.length + 1) 0 [] with
    | (0, dst) => .ok dst
    | (2, _) => .error .errUnsupportedLiteral
    | _ => .error .errCorrupt

/-! ### CompressionNone -/

/-- `CompressionNone.Decoder` returns the source reader unchanged. -/
def CompressionNone.Decoder (r : Bytes) : Bytes := r

/-- A caller's read loop over a plain `bytes.Reader`: read with buffer sizes
`sched i`, accumulate the bytes, stop at `io.EOF` (success) or any other
error (failure); `none` when the fuel runs out. -/
def bytesDrive (sched : Nat → Nat) : Nat → Nat → Bytes → Bytes → Option Bytes
  | 0, _, _, _ => none
  | fuel + 1, i, s, acc =>
    let (out, s', err) := bytesReaderRead s (sched i)
    match err with
    | some .eof => some (acc ++ out)
    | some _ => none
    | none => bytesDrive sched fuel (i + 1) s' (acc ++ out)

/-! ### CompressionZlib (DEFLATE-family) decoder -/

/-- The `decoded` reader of a `CompressionZlibDecoder`: either
`io.LimitReader(source, n)` (original chunk) or
`flate.NewReader(io.LimitReader(source, n))` (compressed chunk). -/
inductive ZlibChunkReader where
  | limitR (n : Nat)
  | flateR (consumed : Bool) (limit : Nat) (pending : Bytes)
deriving DecidableEq, Repr

/-- State of a `*CompressionZlibDecoder` (the unused `remaining` field of the
Go struct is omitted). `decoded = none` models the nil reader. -/
structure CompressionZlibDecoder where
  source : Bytes
  decoded : Option ZlibChunkReader
  isOriginal : Bool
  chunkLength : Nat
deriving DecidableEq, Repr

/-- `CompressionZlib.Decoder`: a fresh decoder over `r` (remaining struct
fields take their Go zero values). -/
def CompressionZlib.Decoder (r : Bytes) : CompressionZlibDecoder :=
  { source := r, decoded := none, isOriginal := false, chunkLength := 0 }

/-- Model of `flate.NewReader(io.LimitReader(source, limit))`, parameterized
by a pure raw-DEFLATE decompression function `inflate`: the first `Read`
consumes the whole bounded region of the source and decompresses it; each
`Read` then delivers at most `cap` bytes of the output, and once the output
is exhausted `Read` reports `io.EOF`. -/
def flateReaderRead (inflate : Bytes → Bytes) (consumed : Bool) (limit : Nat)
    (pending : Bytes) (source : Bytes) (cap : Nat) :
    Bytes × ZlibChunkReader × Bytes × Option GoErr :=
  if consumed then
    if pending.isEmpty then ([], .flateR true limit [], source, some .eof)
    else (pending.take cap, .flateR true limit (pending.drop cap), source, none)
  else
    let body := source.take limit
    let source' := source.drop limit
    let pend := inflate body
    if pend.isEmpty then ([], .flateR true limit [], source', some .eof)
    else (pend.take cap, .flateR true limit (pend.drop cap), source', none)

/-- One `Read` of the active chunk reader of the Zlib decoder
(`c.decoded.Read(p)`), threading the shared underlying source. -/
def zlibChunkRead (inflate : Bytes → Bytes) (r : ZlibChunkReader) (source : Bytes)
    (cap : Nat) : Bytes × ZlibChunkReader × Bytes × Option GoErr :=
  match r with
  | .limitR n =>
    let (out, n', s', err) := limitReaderRead n source cap
    (out, .limitR n', s', err)
  | .flateR consumed limit pending => flateReaderRead inflate consumed limit pending source cap

/-- `(*CompressionZlibDecoder).readHeader`: read (up to) 3 bytes into the
zero-initialized 4-byte header buffer — the byte count is not checked, only
the error — decode the little-endian value, and install the chunk reader:
a bare `io.LimitReader` when the original bit is set, otherwise a flate
reader over the bounded region. Returns `(0 bytes, err)`. -/
def CompressionZlibDecoder.readHeader (inflate : Bytes → Bytes)
    (c : CompressionZlibDecoder) : Bytes × CompressionZlibDecoder × Option GoErr :=
  let (taken, source', err) := bytesReaderRead c.source 3
  match err with
  | some e => ([], c, some e)
  | none =>
    let headerVal := parseHeaderVal taken
    let isOrig := headerVal % 2 == 1
    let len := headerVal / 2
    let dec : ZlibChunkReader :=
      if !isOrig then .flateR false len [] else .limitR len
    ([], { source := source', decoded := some dec, isOriginal := isOrig,
           chunkLength := len }, none)

/-- `(*CompressionZlibDecoder).Read`: with no active chunk reader, parse the
next header (returning 0 bytes); otherwise read from the chunk reader,
translating its `io.EOF` into `(n, nil)` and discarding the reader. -/
def CompressionZlibDecoder.Read (inflate : Bytes → Bytes)
    (c : CompressionZlibDecoder) (cap : Nat) :
    Bytes × CompressionZlibDecoder × Option GoErr :=
  match c.decoded with
  | none => CompressionZlibDecoder.readHeader inflate c
  | some r =>
    let (out, r', src', err) := zlibChunkRead inflate r c.source cap
    if err = some .eof then
      (out, { c with source := src', decoded := none }, none)
    else
      (out, { c with source := src', decoded := some r' }, err)

/-- A caller's read loop over a `CompressionZlibDecoder`: read with buffer
sizes `sched i`, accumulate, stop at `io.EOF` (success) or any other error
(failure); `none` when the fuel runs out. -/
def zlibDrive (inflate : Bytes → Bytes) (sched : Nat → Nat) :
    Nat → Nat → CompressionZlibDecoder → Bytes → Option Bytes
  | 0, _, _, _ => none
  | fuel + 1, i, c, acc =>
    let (out, c', err) := CompressionZlibDecoder.Read inflate c (sched i)
    match err with
    | some .eof => some (acc ++ out)
    | some _ => none
    | none => zlibDrive inflate sched fuel (i + 1) c' (acc ++ out)

/-! ### CompressionSnappy decoder -/

/-- The `decoded` reader of a `CompressionSnappyDecoder`: either
`io.LimitReader(source, n)` (original chunk) or
`bytes.NewReader(decodedBytes)` (compressed chunk, decoded eagerly). -/
inductive SnappyChunkReader where
  | limitR (n : Nat)
  | bytesR (buf : Bytes)
deriving DecidableEq, Repr

/-- State of a `*CompressionSnappyDecoder` (the unused `remaining` field of
the Go struct is omitted). -/
structure CompressionSnappyDecoder where
  source : Bytes
  decoded : Option SnappyChunkReader
  isOriginal : Bool
  chunkLength : Nat
deriving DecidableEq, Repr

/-- `CompressionSnappy.Decoder`: a fresh decoder over `r`. -/
def CompressionSnappy.Decoder (r : Bytes) : CompressionSnappyDecoder :=
  { source := r, decoded := none, isOriginal := false, chunkLength := 0 }

/-- One `Read` of the active chunk reader of the Snappy decoder. -/
def snappyChunkRead (r : SnappyChunkReader) (source : Bytes) (cap : Nat) :
    Bytes × SnappyChunkReader × Bytes × Option GoErr :=
  match r with
  | .limitR n =>
    let (out, n', s', err) := limitReaderRead n source cap
    (out, .limitR n', s', err)
  | .bytesR buf =>
    let (out, buf', err) := bytesReaderRead buf cap
    (out, .bytesR buf', source, err)

/-- `(*CompressionSnappyDecoder).readHeader`: parse the 3-byte header as in
the Zlib decoder; for a compressed chunk,
`ioutil.ReadAll(io.LimitReader(source, chunkLength))` collects
`min chunkLength available` bytes — `ReadAll` converts the terminating
`io.EOF` into success, so a short body yields a short buffer with no
error — and the buffer is decompressed eagerly with `snappy.Decode`, whose
error (if any) is returned; on success the decoded bytes are exposed
through a `bytes.Reader`. -/
def CompressionSnappyDecoder.readHeader (c : CompressionSnappyDecoder) :
    Bytes × CompressionSnappyDecoder × Option GoErr :=
  let (taken, source', err) := bytesReaderRead c.source 3
  match err with
  | some e => ([], c, some e)
  | none =>
    let headerVal := parseHeaderVal taken
    let isOrig := headerVal % 2 == 1
    let len := headerVal / 2
    if !isOrig then
      let src := source'.take len
      let source'' := source'.drop len
      match snappyDecode src with
      | .error e =>
        ([], { c with source := source'', isOriginal := isOrig, chunkLength := len }, some e)
      | .ok decodedBytes =>
        ([], { source := source'', decoded := some (.bytesR decodedBytes),
               isOriginal := isOrig, chunkLength := len }, none)
    else
      ([], { source := source', decoded := some (.limitR len),
             isOriginal := isOrig, chunkLength := len }, none)

/-- `(*CompressionSnappyDecoder).Read`: as for the Zlib decoder, but the
end-of-chunk translation also fires on `snappy.ErrCorrupt` from the chunk
reader (`err == io.EOF || err == snappy.ErrCorrupt`). -/
def CompressionSnappyDecoder.Read (c : CompressionSnappyDecoder) (cap : Nat) :
    Bytes × CompressionSnappyDecoder × Option GoErr :=
  match c.decoded with
  | none => CompressionSnappyDecoder.readHeader c
  | some r =>
    let (out, r', src', err) := snappyChunkRead r c.source cap
    if err = some .eof ∨ err = some .errCorrupt then
      (out, { c with source := src', decoded := none }, none)
    else
      (out, { c with source := src', decoded := some r' }, err)

/-- A caller's read loop over a `CompressionSnappyDecoder`. -/
def snappyDrive (sched : Nat → Nat) :
    Nat → Nat → CompressionSnappyDecoder → Bytes → Option Bytes
  | 0, _, _, _ => none
  | fuel + 1, i, c, acc =>
    let (out, c', err) := CompressionSnappyDecoder.Read c (sched i)
    match err with
    | some .eof => some (acc ++ out)
    | some _ => none
    | none => snappyDrive sched fuel (i + 1) c' (acc ++ out)

/-! ### Header encoding (from the spec's round-trip property; the
repository implements no encoder) -/

/-- The 3-byte little-endian encoding of `(chunkLength <<< 1) ||| isOriginal`
stated by the spec's round-trip property. For `len < 2 ^ 23` the value
`len * 2 + bit` equals the bitwise composition and fits in 24 bits. -/
def encodeHeader (isOrig : Bool) (len : Nat) : Bytes :=
  let v := len * 2 + (if isOrig then 1 else 0)
  [v % 256, v / 256 % 256, v / 65536 % 256]

/-- A chunk image on the wire: header followed by the body. -/
def encodeChunk (isOrig : Bool) (body : Bytes) : Bytes :=
  encodeHeader isOrig body.length ++ body

/-- Validity of a chunk for the Snappy decoder: an original chunk's decoded
content is its body; a compressed chunk's body must Snappy-decode to the
content. -/
def SnappyChunkOk (isOrig : Bool) (body m : Bytes) : Prop :=
  if isOrig then m = body else snappyDecode body = Except.ok m

/-! ## Helper lemmas -/

theorem parseHeaderVal_take3 (b0 b1 b2 : Nat) (rest : Bytes) :
    parseHeaderVal ((b0 :: b1 :: b2 :: rest).take 3) = b0 + b1 * 256 + b2 * 65536 := by
  simp [parseHeaderVal, uint32LE]

/-- Result of the Zlib header parse on a source with at least 3 bytes. -/
theorem zlibReadHeader_cons (inflate : Bytes → Bytes) (b0 b1 b2 : Nat) (rest : Bytes)
    (c : CompressionZlibDecoder) (hs : c.source = b0 :: b1 :: b2 :: rest) :
    CompressionZlibDecoder.readHeader inflate c =
      ([], { source := rest,
             decoded := some (if !((b0 + b1 * 256 + b2 * 65536) % 2 == 1) then
                 .flateR false ((b0 + b1 * 256 + b2 * 65536) / 2) []
               else .limitR ((b0 + b1 * 256 + b2 * 65536) / 2)),
             isOriginal := (b0 + b1 * 256 + b2 * 65536) % 2 == 1,
             chunkLength := (b0 + b1 * 256 + b2 * 65536) / 2 }, none) := by
  simp only [CompressionZlibDecoder.readHeader, bytesReaderRead, hs, List.isEmpty_cons,
    Bool.false_eq_true, if_false, parseHeaderVal_take3]
  rfl

/-- The fields set by the Snappy header parse on a source with at least 3
bytes (whatever the body decode does). -/
theorem snappyReadHeader_fields (b0 b1 b2 : Nat) (rest : Bytes)
    (c : CompressionSnappyDecoder) (hs : c.source = b0 :: b1 :: b2 :: rest) :
    ((CompressionSnappyDecoder.readHeader c).2.1.isOriginal
        = ((b0 + b1 * 256 + b2 * 65536) % 2 == 1))
    ∧ ((CompressionSnappyDecoder.readHeader c).2.1.chunkLength
        = (b0 + b1 * 256 + b2 * 65536) / 2) := by
  simp only [CompressionSnappyDecoder.readHeader, bytesReaderRead, hs, List.isEmpty_cons,
    Bool.false_eq_true, if_false, parseHeaderVal_take3]
  split
  · split <;> simp
  · simp

/-- The encoded header's 24-bit value recomposes to the encoded pair. -/
theorem parseHeaderVal_encodeHeader (b : Bool) (len : Nat) (h : len < 2 ^ 23) :
    parseHeaderVal (encodeHeader b len) = len * 2 + (if b then 1 else 0) := by
  cases b <;> simp [parseHeaderVal, encodeHeader, uint32LE] <;> omega

theorem encodeHeader_cons (b : Bool) (len : Nat) :
    ∃ b0 b1 b2, encodeHeader b len = [b0, b1, b2]
      ∧ b0 + b1 * 256 + b2 * 65536 = parseHeaderVal (encodeHeader b len) := by
  refine ⟨_, _, _, rfl, ?_⟩
  simp [parseHeaderVal, encodeHeader, uint32LE]

theorem encodeHeaderVal_props (b : Bool) (len : Nat) (h : len < 2 ^ 23) :
    (parseHeaderVal (encodeHeader b len) % 2 == 1) = b
    ∧ parseHeaderVal (encodeHeader b len) / 2 = len := by
  have hv := parseHeaderVal_encodeHeader b len h
  cases b
  · rw [hv]
    have h0 : len * 2 + (if (false : Bool) then 1 else 0) = len * 2 := by simp
    rw [h0]
    constructor
    · have h2 : len * 2 % 2 = 0 := by omega
      rw [h2]
      rfl
    · omega
  · rw [hv]
    have h0 : len * 2 + (if (true : Bool) then 1 else 0) = len * 2 + 1 := by simp
    rw [h0]
    constructor
    · have h2 : (len * 2 + 1) % 2 = 1 := by omega
      rw [h2]
      rfl
    · omega

/-! ### Read-step lemmas for the Zlib decoder -/

/-- Reading from an exhausted `io.LimitReader` chunk: `io.EOF` is translated
into a clean zero-byte read and the chunk reader is discarded. -/
theorem zlibRead_limitR_zero (inflate : Bytes → Bytes) (source : Bytes) (o : Bool)
    (cl cap : Nat) :
    CompressionZlibDecoder.Read inflate ⟨source, some (.limitR 0), o, cl⟩ cap
      = ([], ⟨source, none, o, cl⟩, none) := by
  simp [CompressionZlibDecoder.Read, zlibChunkRead, limitReaderRead]

/-- Reading from a live `io.LimitReader` chunk with `n` bytes left delivers
`min cap n` source bytes. -/
theorem zlibRead_limitR_pos (inflate : Bytes → Bytes) (n : Nat) (body rest : Bytes)
    (o : Bool) (cl cap : Nat) (hn : 0 < n) (hlen : body.length = n) :
    CompressionZlibDecoder.Read inflate ⟨body ++ rest, some (.limitR n), o, cl⟩ cap
      = (body.take (min cap n),
         ⟨body.drop (min cap n) ++ rest, some (.limitR (n - min cap n)), o, cl⟩, none) := by
  have hn0 : ¬ n = 0 := by omega
  have hdle : min cap n ≤ body.length := by omega
  have h1 : (body ++ rest).take (min cap n) = body.take (min cap n) :=
    List.take_append_of_le_length hdle
  have h2 : (body ++ rest).drop (min cap n) = body.drop (min cap n) ++ rest :=
    List.drop_append_of_le_length hdle
  have h3 : (body.take (min cap n)).length = min cap n := by
    rw [List.length_take]; omega
  have hne : (body ++ rest).isEmpty = false := by
    cases body with
    | nil => simp at hlen; omega
    | cons a t => rfl
  simp [CompressionZlibDecoder.Read, zlibChunkRead, limitReaderRead, bytesReaderRead,
    hn0, hne, h1, h2, h3]

/-- First read of a flate chunk whose decompressed output is empty: the
bounded region is consumed, `io.EOF` is translated, the reader discarded. -/
theorem zlibRead_flate_first_nil (inflate : Bytes → Bytes) (limit : Nat) (source : Bytes)
    (o : Bool) (cl cap : Nat) (hnil : inflate (source.take limit) = []) :
    CompressionZlibDecoder.Read inflate ⟨source, some (.flateR false limit []), o, cl⟩ cap
      = ([], ⟨source.drop limit, none, o, cl⟩, none) := by
  simp [CompressionZlibDecoder.Read, zlibChunkRead, flateReaderRead, hnil]

/-- First read of a flate chunk with nonempty decompressed output: the
bounded region is consumed and the first `cap` output bytes delivered. -/
theorem zlibRead_flate_first_cons (inflate : Bytes → Bytes) (limit : Nat) (source : Bytes)
    (o : Bool) (cl cap : Nat) (hne : inflate (source.take limit) ≠ []) :
    CompressionZlibDecoder.Read inflate ⟨source, some (.flateR false limit []), o, cl⟩ cap
      = ((inflate (source.take limit)).take cap,
         ⟨source.drop limit,
          some (.flateR true limit ((inflate (source.take limit)).drop cap)), o, cl⟩,
         none) := by
  have h : (inflate (source.take limit)).isEmpty = false := by
    cases hne' : inflate (source.take limit) with
    | nil => exact absurd hne' hne
    | cons a t => rfl
  simp [CompressionZlibDecoder.Read, zlibChunkRead, flateReaderRead, h]

/-- Reading a consumed flate chunk with no pending output: `io.EOF`
translated, reader discarded. -/
theorem zlibRead_flate_pending_nil (inflate : Bytes → Bytes) (limit : Nat)
    (source : Bytes) (o : Bool) (cl cap : Nat) :
    CompressionZlibDecoder.Read inflate ⟨source, some (.flateR true limit []), o, cl⟩ cap
      = ([], ⟨source, none, o, cl⟩, none) := by
  simp [CompressionZlibDecoder.Read, zlibChunkRead, flateReaderRead]

/-- Reading a consumed flate chunk with nonempty pending output delivers up
to `cap` pending bytes. -/
theorem zlibRead_flate_pending_cons (inflate : Bytes → Bytes) (limit : Nat)
    (pending source : Bytes) (o : Bool) (cl cap : Nat) (hne : pending ≠ []) :
    CompressionZlibDecoder.Read inflate
        ⟨source, some (.flateR true limit pending), o, cl⟩ cap
      = (pending.take cap,
         ⟨source, some (.flateR true limit (pending.drop cap)), o, cl⟩, none) := by
  have h : pending.isEmpty = false := by
    cases hne' : pending with
    | nil => exact absurd hne' hne
    | cons a t => rfl
  simp [CompressionZlibDecoder.Read, zlibChunkRead, flateReaderRead, h]

/-- A read at a clean chunk boundary with no bytes left reports `io.EOF`. -/
theorem zlibRead_none_nil (inflate : Bytes → Bytes) (o : Bool) (cl cap : Nat) :
    CompressionZlibDecoder.Read inflate ⟨[], none, o, cl⟩ cap
      = ([], ⟨[], none, o, cl⟩, some .eof) := by
  simp [CompressionZlibDecoder.Read, CompressionZlibDecoder.readHeader, bytesReaderRead]

/-- The header-parsing read at the start of an encoded chunk installs the
chunk reader dictated by the original bit. -/
theorem zlibRead_header_chunk (inflate : Bytes → Bytes) (isOrig : Bool)
    (body rest : Bytes) (o0 : Bool) (cl0 cap : Nat) (hlen : body.length < 2 ^ 23) :
    CompressionZlibDecoder.Read inflate
        ⟨encodeChunk isOrig body ++ rest, none, o0, cl0⟩ cap
      = ([], ⟨body ++ rest,
              some (if isOrig then .limitR body.length
                else .flateR false body.length []),
              isOrig, body.length⟩, none) := by
  obtain ⟨b0, b1, b2, henc, hsum⟩ := encodeHeader_cons isOrig body.length
  obtain ⟨hbit, hdiv⟩ := encodeHeaderVal_props isOrig body.length hlen
  have hsrc : (⟨encodeChunk isOrig body ++ rest, none, o0, cl0⟩ :
      CompressionZlibDecoder).source = b0 :: b1 :: b2 :: (body ++ rest) := by
    show encodeChunk isOrig body ++ rest = _
    rw [encodeChunk, List.append_assoc, henc]
    rfl
  have hread : CompressionZlibDecoder.Read inflate
      ⟨encodeChunk isOrig body ++ rest, none, o0, cl0⟩ cap
      = CompressionZlibDecoder.readHeader inflate
        ⟨encodeChunk isOrig body ++ rest, none, o0, cl0⟩ := rfl
  rw [hread, zlibReadHeader_cons inflate b0 b1 b2 (body ++ rest) _ hsrc]
  rw [← hsum] at hbit hdiv
  rw [hbit, hdiv]
  cases isOrig <;> rfl

/-! ### Drive lemmas for the Zlib decoder -/

/-- Unfolding one successful read in the caller loop. -/
theorem zlibDrive_step_none (inflate : Bytes → Bytes) (sched : Nat → Nat) (fuel i : Nat)
    (c c' : CompressionZlibDecoder) (acc out : Bytes)
    (h : CompressionZlibDecoder.Read inflate c (sched i) = (out, c', none)) :
    zlibDrive inflate sched (fuel + 1) i c acc
      = zlibDrive inflate sched fuel (i + 1) c' (acc ++ out) := by
  simp [zlibDrive, h]

/-- Unfolding the final read in the caller loop. -/
theorem zlibDrive_step_eof (inflate : Bytes → Bytes) (sched : Nat → Nat) (fuel i : Nat)
    (c c' : CompressionZlibDecoder) (acc out : Bytes)
    (h : CompressionZlibDecoder.Read inflate c (sched i) = (out, c', some .eof)) :
    zlibDrive inflate sched (fuel + 1) i c acc = some (acc ++ out) := by
  simp [zlibDrive, h]

/-- An exhausted source at a chunk boundary ends the caller loop cleanly. -/
theorem zlibDrive_end (inflate : Bytes → Bytes) (sched : Nat → Nat) (fuel i : Nat)
    (acc : Bytes) (o : Bool) (cl : Nat) :
    zlibDrive inflate sched (fuel + 1) i ⟨[], none, o, cl⟩ acc = some acc := by
  rw [zlibDrive_step_eof inflate sched fuel i _ _ acc [] (zlibRead_none_nil inflate o cl _)]
  simp

/-- Draining an original chunk's `io.LimitReader`: the next `n` source bytes
come out verbatim, within `n + 1` reads, after which the loop sits at the
next chunk boundary. -/
theorem zlibDrive_limitR (inflate : Bytes → Bytes) (sched : Nat → Nat)
    (hs : ∀ k, 0 < sched k) :
    ∀ (fuel n : Nat) (body rest acc : Bytes) (i : Nat) (o : Bool) (cl : Nat),
      body.length = n → n + 1 ≤ fuel →
      ∃ j, 0 < j ∧ j ≤ n + 1 ∧
        zlibDrive inflate sched fuel i ⟨body ++ rest, some (.limitR n), o, cl⟩ acc
          = zlibDrive inflate sched (fuel - j) (i + j) ⟨rest, none, o, cl⟩ (acc ++ body) := by
  intro fuel
  induction fuel with
  | zero => intro n body rest acc i o cl hlen hfuel; omega
  | succ fuel ih =>
    intro n body rest acc i o cl hlen hfuel
    rcases Nat.eq_zero_or_pos n with hn | hn
    · subst hn
      have hbody : body = [] := List.length_eq_zero.mp hlen
      subst hbody
      refine ⟨1, by omega, by omega, ?_⟩
      rw [show ([] : Bytes) ++ rest = rest from rfl,
        zlibDrive_step_none inflate sched fuel i _ _ acc []
          (zlibRead_limitR_zero inflate rest o cl _)]
      simp
    · have hd1 : 0 < min (sched i) n := by have := hs i; omega
      have hdle : min (sched i) n ≤ body.length := by omega
      rw [zlibDrive_step_none inflate sched fuel i _ _ acc _
        (zlibRead_limitR_pos inflate n body rest o cl (sched i) hn hlen)]
      obtain ⟨j, hj0, hjle, heq⟩ :=
        ih (n - min (sched i) n) (body.drop (min (sched i) n)) rest
          (acc ++ body.take (min (sched i) n)) (i + 1) o cl
          (by rw [List.length_drop]; omega) (by omega)
      refine ⟨j + 1, by omega, by omega, ?_⟩
      rw [heq, List.append_assoc, List.take_append_drop]
      have h1 : fuel - j = fuel + 1 - (j + 1) := by omega
      have h2 : i + 1 + j = i + (j + 1) := by omega
      rw [h1, h2]

/-- Draining the pending decompressed output of a consumed flate chunk. -/
theorem zlibDrive_flatePending (inflate : Bytes → Bytes) (sched : Nat → Nat)
    (hs : ∀ k, 0 < sched k) :
    ∀ (fuel : Nat) (pending source acc : Bytes) (i limit : Nat) (o : Bool) (cl : Nat),
      pending.length + 1 ≤ fuel →
      ∃ j, 0 < j ∧ j ≤ pending.length + 1 ∧
        zlibDrive inflate sched fuel i
            ⟨source, some (.flateR true limit pending), o, cl⟩ acc
          = zlibDrive inflate sched (fuel - j) (i + j) ⟨source, none, o, cl⟩
              (acc ++ pending) := by
  intro fuel
  induction fuel with
  | zero => intro pending source acc i limit o cl hfuel; omega
  | succ fuel ih =>
    intro pending source acc i limit o cl hfuel
    rcases hp : pending with _ | ⟨a, t⟩
    · refine ⟨1, by omega, by omega, ?_⟩
      rw [zlibDrive_step_none inflate sched fuel i _ _ acc []
        (zlibRead_flate_pending_nil inflate limit source o cl _)]
      simp
    · rw [← hp]
      have hne : pending ≠ [] := by rw [hp]; exact List.cons_ne_nil a t
      have hplen : 0 < pending.length := by rw [hp]; simp
      rw [zlibDrive_step_none inflate sched fuel i _ _ acc _
        (zlibRead_flate_pending_cons inflate limit pending source o cl (sched i) hne)]
      obtain ⟨j, hj0, hjle, heq⟩ :=
        ih (pending.drop (sched i)) source (acc ++ pending.take (sched i)) (i + 1)
          limit o cl (by rw [List.length_drop]; have := hs i; omega)
      refine ⟨j + 1, by omega, ?_, ?_⟩
      · rw [List.length_drop] at hjle; have := hs i; omega
      · rw [heq, List.append_assoc, List.take_append_drop]
        have h1 : fuel - j = fuel + 1 - (j + 1) := by omega
        have h2 : i + 1 + j = i + (j + 1) := by omega
        rw [h1, h2]

/-- Decoding one whole encoded chunk out of the stream: within
`content.length + 2` reads the loop emits exactly the chunk's decoded
content and sits at the next chunk boundary. -/
theorem zlibDrive_chunk (inflate : Bytes → Bytes) (sched : Nat → Nat)
    (hs : ∀ k, 0 < sched k) :
    ∀ (fuel : Nat) (isOrig : Bool) (body rest acc : Bytes) (i : Nat) (o0 : Bool)
      (cl0 : Nat),
      body.length < 2 ^ 23 →
      (cond isOrig body (inflate body)).length + 2 ≤ fuel →
      ∃ j, 0 < j ∧ j ≤ (cond isOrig body (inflate body)).length + 2 ∧
        zlibDrive inflate sched fuel i ⟨encodeChunk isOrig body ++ rest, none, o0, cl0⟩ acc
          = zlibDrive inflate sched (fuel - j) (i + j)
              ⟨rest, none, isOrig, body.length⟩ (acc ++ cond isOrig body (inflate body)) := by
  intro fuel isOrig body rest acc i o0 cl0 hlen hfuel
  obtain ⟨fuel, rfl⟩ : ∃ f, fuel = f + 1 := ⟨fuel - 1, by omega⟩
  rw [zlibDrive_step_none inflate sched fuel i _ _ acc []
    (zlibRead_header_chunk inflate isOrig body rest o0 cl0 _ hlen)]
  rw [List.append_nil]
  cases isOrig
  · -- compressed chunk: flate reader over the bounded region
    simp only [if_false, Bool.false_eq_true, cond_false] at *
    have htake : (body ++ rest).take body.length = body := List.take_left body rest
    have hdrop : (body ++ rest).drop body.length = rest := List.drop_left body rest
    rcases hm : inflate body with _ | ⟨a, t⟩
    · -- empty decompressed output: one more read reaches the boundary
      obtain ⟨fuel, rfl⟩ : ∃ f, fuel = f + 1 := ⟨fuel - 1, by omega⟩
      rw [zlibDrive_step_none inflate sched (fuel : Nat) (i + 1) _ _ acc []
        (zlibRead_flate_first_nil inflate body.length (body ++ rest) false body.length _
          (by rw [htake, hm]))]
      refine ⟨2, by omega, by simp [hm], ?_⟩
      rw [hdrop]
      simp [hm]
    · -- nonempty decompressed output
      rw [← hm]
      have hne : inflate body ≠ [] := by rw [hm]; exact List.cons_ne_nil a t
      have hmlen : 0 < (inflate body).length := by rw [hm]; simp
      obtain ⟨fuel, rfl⟩ : ∃ f, fuel = f + 1 := ⟨fuel - 1, by omega⟩
      rw [zlibDrive_step_none inflate sched (fuel : Nat) (i + 1) _ _ acc _
        (by rw [show CompressionZlibDecoder.Read inflate
              ⟨body ++ rest, some (.flateR false body.length []), false, body.length⟩
              (sched (i + 1))
            = ((inflate ((body ++ rest).take body.length)).take (sched (i + 1)),
               ⟨(body ++ rest).drop body.length,
                some (.flateR true body.length
                  ((inflate ((body ++ rest).take body.length)).drop (sched (i + 1)))),
                false, body.length⟩, none) from
            zlibRead_flate_first_cons inflate body.length (body ++ rest) false
              body.length _ (by rw [htake]; exact hne), htake, hdrop])]
      obtain ⟨j, hj0, hjle, heq⟩ :=
        zlibDrive_flatePending inflate sched hs fuel
          ((inflate body).drop (sched (i + 1))) rest
          (acc ++ (inflate body).take (sched (i + 1))) (i + 2) body.length false
          body.length (by rw [List.length_drop]; have := hs (i + 1); omega)
      refine ⟨j + 2, by omega, ?_, ?_⟩
      · rw [List.length_drop] at hjle; have := hs (i + 1); omega
      · rw [heq, List.append_assoc, List.take_append_drop]
        have h1 : fuel - j = fuel + 1 + 1 - (j + 2) := by omega
        have h2 : i + 2 + j = i + (j + 2) := by omega
        rw [h1, h2]
  · -- original chunk: bounded verbatim reader
    simp only [if_true, cond_true] at hfuel ⊢
    obtain ⟨j, hj0, hjle, heq⟩ :=
      zlibDrive_limitR inflate sched hs fuel body.length body rest acc (i + 1) true
        body.length rfl (by omega)
    refine ⟨j + 1, by omega, by omega, ?_⟩
    rw [heq]
    have h1 : fuel - j = fuel + 1 - (j + 1) := by omega
    have h2 : i + 1 + j = i + (j + 1) := by omega
    rw [h1, h2]

/-! ### Read-step lemmas for the Snappy decoder -/

/-- The Snappy header parse on an original chunk header. -/
theorem snappyReadHeader_orig (b0 b1 b2 : Nat) (rest : Bytes)
    (c : CompressionSnappyDecoder) (hs : c.source = b0 :: b1 :: b2 :: rest)
    (hbit : ((b0 + b1 * 256 + b2 * 65536) % 2 == 1) = true) :
    CompressionSnappyDecoder.readHeader c
      = ([], ⟨rest, some (.limitR ((b0 + b1 * 256 + b2 * 65536) / 2)), true,
              (b0 + b1 * 256 + b2 * 65536) / 2⟩, none) := by
  simp only [CompressionSnappyDecoder.readHeader, bytesReaderRead, hs, List.isEmpty_cons,
    Bool.false_eq_true, if_false, parseHeaderVal_take3, hbit]
  rfl

/-- The Snappy header parse on a compressed chunk header whose buffered body
decodes successfully. -/
theorem snappyReadHeader_comp (b0 b1 b2 : Nat) (rest m : Bytes)
    (c : CompressionSnappyDecoder) (hs : c.source = b0 :: b1 :: b2 :: rest)
    (hbit : ((b0 + b1 * 256 + b2 * 65536) % 2 == 1) = false)
    (hok : snappyDecode (rest.take ((b0 + b1 * 256 + b2 * 65536) / 2)) = Except.ok m) :
    CompressionSnappyDecoder.readHeader c
      = ([], ⟨rest.drop ((b0 + b1 * 256 + b2 * 65536) / 2), some (.bytesR m), false,
              (b0 + b1 * 256 + b2 * 65536) / 2⟩, none) := by
  simp only [CompressionSnappyDecoder.readHeader, bytesReaderRead, hs, List.isEmpty_cons,
    Bool.false_eq_true, if_false, parseHeaderVal_take3, hbit]
  rw [show List.drop 3 (b0 :: b1 :: b2 :: rest) = rest from rfl, hok]
  rfl

/-- Reading from an exhausted `io.LimitReader` chunk of the Snappy decoder. -/
theorem snappyRead_limitR_zero (source : Bytes) (o : Bool) (cl cap : Nat) :
    CompressionSnappyDecoder.Read ⟨source, some (.limitR 0), o, cl⟩ cap
      = ([], ⟨source, none, o, cl⟩, none) := by
  simp [CompressionSnappyDecoder.Read, snappyChunkRead, limitReaderRead]

/-- Reading from a live `io.LimitReader` chunk of the Snappy decoder. -/
theorem snappyRead_limitR_pos (n : Nat) (body rest : Bytes) (o : Bool) (cl cap : Nat)
    (hn : 0 < n) (hlen : body.length = n) :
    CompressionSnappyDecoder.Read ⟨body ++ rest, some (.limitR n), o, cl⟩ cap
      = (body.take (min cap n),
         ⟨body.drop (min cap n) ++ rest, some (.limitR (n - min cap n)), o, cl⟩, none) := by
  have hn0 : ¬ n = 0 := by omega
  have hdle : min cap n ≤ body.length := by omega
  have h1 : (body ++ rest).take (min cap n) = body.take (min cap n) :=
    List.take_append_of_le_length hdle
  have h2 : (body ++ rest).drop (min cap n) = body.drop (min cap n) ++ rest :=
    List.drop_append_of_le_length hdle
  have h3 : (body.take (min cap n)).length = min cap n := by
    rw [List.length_take]; omega
  have hne : (body ++ rest).isEmpty = false := by
    cases body with
    | nil => simp at hlen; omega
    | cons a t => rfl
  simp [CompressionSnappyDecoder.Read, snappyChunkRead, limitReaderRead, bytesReaderRead,
    hn0, hne, h1, h2, h3]

/-- Reading an exhausted decoded-buffer reader: `io.EOF` translated, reader
discarded. -/
theorem snappyRead_bytesR_nil (source : Bytes) (o : Bool) (cl cap : Nat) :
    CompressionSnappyDecoder.Read ⟨source, some (.bytesR []), o, cl⟩ cap
      = ([], ⟨source, none, o, cl⟩, none) := by
  simp [CompressionSnappyDecoder.Read, snappyChunkRead, bytesReaderRead]

/-- Reading a nonempty decoded-buffer reader delivers up to `cap` bytes. -/
theorem snappyRead_bytesR_cons (buf source : Bytes) (o : Bool) (cl cap : Nat)
    (hne : buf ≠ []) :
    CompressionSnappyDecoder.Read ⟨source, some (.bytesR buf), o, cl⟩ cap
      = (buf.take cap, ⟨source, some (.bytesR (buf.drop cap)), o, cl⟩, none) := by
  have h : buf.isEmpty = false := by
    cases hne' : buf with
    | nil => exact absurd hne' hne
    | cons a t => rfl
  simp [CompressionSnappyDecoder.Read, snappyChunkRead, bytesReaderRead, h]

/-- A Snappy-decoder read at a clean chunk boundary with no bytes left
reports `io.EOF`. -/
theorem snappyRead_none_nil (o : Bool) (cl cap : Nat) :
    CompressionSnappyDecoder.Read ⟨[], none, o, cl⟩ cap
      = ([], ⟨[], none, o, cl⟩, some .eof) := by
  simp [CompressionSnappyDecoder.Read, CompressionSnappyDecoder.readHeader, bytesReaderRead]

/-- The header-parsing read at the start of an encoded original chunk. -/
theorem snappyRead_header_chunk_orig (body rest : Bytes) (o0 : Bool) (cl0 cap : Nat)
    (hlen : body.length < 2 ^ 23) :
    CompressionSnappyDecoder.Read ⟨encodeChunk true body ++ rest, none, o0, cl0⟩ cap
      = ([], ⟨body ++ rest, some (.limitR body.length), true, body.length⟩, none) := by
  obtain ⟨b0, b1, b2, henc, hsum⟩ := encodeHeader_cons true body.length
  obtain ⟨hbit, hdiv⟩ := encodeHeaderVal_props true body.length hlen
  rw [← hsum] at hbit hdiv
  have hsrc : (⟨encodeChunk true body ++ rest, none, o0, cl0⟩ :
      CompressionSnappyDecoder).source = b0 :: b1 :: b2 :: (body ++ rest) := by
    show encodeChunk true body ++ rest = _
    rw [encodeChunk, List.append_assoc, henc]
    rfl
  have hread : CompressionSnappyDecoder.Read
      ⟨encodeChunk true body ++ rest, none, o0, cl0⟩ cap
      = CompressionSnappyDecoder.readHeader
        ⟨encodeChunk true body ++ rest, none, o0, cl0⟩ := rfl
  rw [hread, snappyReadHeader_orig b0 b1 b2 (body ++ rest) _ hsrc hbit, hdiv]

/-- The header-parsing read at the start of an encoded compressed chunk
whose body Snappy-decodes to `m`. -/
theorem snappyRead_header_chunk_comp (body rest m : Bytes) (o0 : Bool) (cl0 cap : Nat)
    (hlen : body.length < 2 ^ 23) (hok : snappyDecode body = Except.ok m) :
    CompressionSnappyDecoder.Read ⟨encodeChunk false body ++ rest, none, o0, cl0⟩ cap
      = ([], ⟨rest, some (.bytesR m), false, body.length⟩, none) := by
  obtain ⟨b0, b1, b2, henc, hsum⟩ := encodeHeader_cons false body.length
  obtain ⟨hbit, hdiv⟩ := encodeHeaderVal_props false body.length hlen
  rw [← hsum] at hbit hdiv
  have hsrc : (⟨encodeChunk false body ++ rest, none, o0, cl0⟩ :
      CompressionSnappyDecoder).source = b0 :: b1 :: b2 :: (body ++ rest) := by
    show encodeChunk false body ++ rest = _
    rw [encodeChunk, List.append_assoc, henc]
    rfl
  have hok' : snappyDecode ((body ++ rest).take ((b0 + b1 * 256 + b2 * 65536) / 2))
      = Except.ok m := by
    rw [hdiv, List.take_left]
    exact hok
  have hread : CompressionSnappyDecoder.Read
      ⟨encodeChunk false body ++ rest, none, o0, cl0⟩ cap
      = CompressionSnappyDecoder.readHeader
        ⟨encodeChunk false body ++ rest, none, o0, cl0⟩ := rfl
  rw [hread, snappyReadHeader_comp b0 b1 b2 (body ++ rest) m _ hsrc hbit hok', hdiv,
    List.drop_left]

/-! ### Drive lemmas for the Snappy decoder -/

/-- Unfolding one successful read in the caller loop. -/
theorem snappyDrive_step_none (sched : Nat → Nat) (fuel i : Nat)
    (c c' : CompressionSnappyDecoder) (acc out : Bytes)
    (h : CompressionSnappyDecoder.Read c (sched i) = (out, c', none)) :
    snappyDrive sched (fuel + 1) i c acc
      = snappyDrive sched fuel (i + 1) c' (acc ++ out) := by
  simp [snappyDrive, h]

/-- Unfolding the final read in the caller loop. -/
theorem snappyDrive_step_eof (sched : Nat → Nat) (fuel i : Nat)
    (c c' : CompressionSnappyDecoder) (acc out : Bytes)
    (h : CompressionSnappyDecoder.Read c (sched i) = (out, c', some .eof)) :
    snappyDrive sched (fuel + 1) i c acc = some (acc ++ out) := by
  simp [snappyDrive, h]

/-- An exhausted source at a chunk boundary ends the caller loop cleanly. -/
theorem snappyDrive_end (sched : Nat → Nat) (fuel i : Nat) (acc : Bytes) (o : Bool)
    (cl : Nat) :
    snappyDrive sched (fuel + 1) i ⟨[], none, o, cl⟩ acc = some acc := by
  rw [snappyDrive_step_eof sched fuel i _ _ acc [] (snappyRead_none_nil o cl _)]
  simp

/-- Draining an original chunk's `io.LimitReader` (Snappy decoder). -/
theorem snappyDrive_limitR (sched : Nat → Nat) (hs : ∀ k, 0 < sched k) :
    ∀ (fuel n : Nat) (body rest acc : Bytes) (i : Nat) (o : Bool) (cl : Nat),
      body.length = n → n + 1 ≤ fuel →
      ∃ j, 0 < j ∧ j ≤ n + 1 ∧
        snappyDrive sched fuel i ⟨body ++ rest, some (.limitR n), o, cl⟩ acc
          = snappyDrive sched (fuel - j) (i + j) ⟨rest, none, o, cl⟩ (acc ++ body) := by
  intro fuel
  induction fuel with
  | zero => intro n body rest acc i o cl hlen hfuel; omega
  | succ fuel ih =>
    intro n body rest acc i o cl hlen hfuel
    rcases Nat.eq_zero_or_pos n with hn | hn
    · subst hn
      have hbody : body = [] := List.length_eq_zero.mp hlen
      subst hbody
      refine ⟨1, by omega, by omega, ?_⟩
      rw [show ([] : Bytes) ++ rest = rest from rfl,
        snappyDrive_step_none sched fuel i _ _ acc []
          (snappyRead_limitR_zero rest o cl _)]
      simp
    · have hd1 : 0 < min (sched i) n := by have := hs i; omega
      have hdle : min (sched i) n ≤ body.length := by omega
      rw [snappyDrive_step_none sched fuel i _ _ acc _
        (snappyRead_limitR_pos n body rest o cl (sched i) hn hlen)]
      obtain ⟨j, hj0, hjle, heq⟩ :=
        ih (n - min (sched i) n) (body.drop (min (sched i) n)) rest
          (acc ++ body.take (min (sched i) n)) (i + 1) o cl
          (by rw [List.length_drop]; omega) (by omega)
      refine ⟨j + 1, by omega, by omega, ?_⟩
      rw [heq, List.append_assoc, List.take_append_drop]
      have h1 : fuel - j = fuel + 1 - (j + 1) := by omega
      have h2 : i + 1 + j = i + (j + 1) := by omega
      rw [h1, h2]

/-- Draining the decoded buffer of a compressed chunk (Snappy decoder). -/
theorem snappyDrive_bytesR (sched : Nat → Nat) (hs : ∀ k, 0 < sched k) :
    ∀ (fuel : Nat) (buf source acc : Bytes) (i : Nat) (o : Bool) (cl : Nat),
      buf.length + 1 ≤ fuel →
      ∃ j, 0 < j ∧ j ≤ buf.length + 1 ∧
        snappyDrive sched fuel i ⟨source, some (.bytesR buf), o, cl⟩ acc
          = snappyDrive sched (fuel - j) (i + j) ⟨source, none, o, cl⟩ (acc ++ buf) := by
  intro fuel
  induction fuel with
  | zero => intro buf source acc i o cl hfuel; omega
  | succ fuel ih =>
    intro buf source acc i o cl hfuel
    rcases hb : buf with _ | ⟨a, t⟩
    · refine ⟨1, by omega, by omega, ?_⟩
      rw [snappyDrive_step_none sched fuel i _ _ acc []
        (snappyRead_bytesR_nil source o cl _)]
      simp
    · rw [← hb]
      have hne : buf ≠ [] := by rw [hb]; exact List.cons_ne_nil a t
      have hblen : 0 < buf.length := by rw [hb]; simp
      rw [snappyDrive_step_none sched fuel i _ _ acc _
        (snappyRead_bytesR_cons buf source o cl (sched i) hne)]
      obtain ⟨j, hj0, hjle, heq⟩ :=
        ih (buf.drop (sched i)) source (acc ++ buf.take (sched i)) (i + 1) o cl
          (by rw [List.length_drop]; have := hs i; omega)
      refine ⟨j + 1, by omega, ?_, ?_⟩
      · rw [List.length_drop] at hjle; have := hs i; omega
      · rw [heq, List.append_assoc, List.take_append_drop]
        have h1 : fuel - j = fuel + 1 - (j + 1) := by omega
        have h2 : i + 1 + j = i + (j + 1) := by omega
        rw [h1, h2]

/-- Decoding one whole encoded chunk out of the stream (Snappy decoder):
within `m.length + 2` reads the loop emits the chunk's decoded content `m`
and sits at the next chunk boundary. -/
theorem snappyDrive_chunk (sched : Nat → Nat) (hs : ∀ k, 0 < sched k) :
    ∀ (fuel : Nat) (isOrig : Bool) (body rest acc m : Bytes) (i : Nat) (o0 : Bool)
      (cl0 : Nat),
      body.length < 2 ^ 23 → SnappyChunkOk isOrig body m →
      m.length + 2 ≤ fuel →
      ∃ j, 0 < j ∧ j ≤ m.length + 2 ∧
        snappyDrive sched fuel i ⟨encodeChunk isOrig body ++ rest, none, o0, cl0⟩ acc
          = snappyDrive sched (fuel - j) (i + j)
              ⟨rest, none, isOrig, body.length⟩ (acc ++ m) := by
  intro fuel isOrig body rest acc m i o0 cl0 hlen hok hfuel
  obtain ⟨fuel, rfl⟩ : ∃ f, fuel = f + 1 := ⟨fuel - 1, by omega⟩
  cases isOrig
  · -- compressed chunk: the header read decodes the buffered body
    have hok' : snappyDecode body = Except.ok m := hok
    rw [snappyDrive_step_none sched fuel i _ _ acc []
      (snappyRead_header_chunk_comp body rest m o0 cl0 _ hlen hok'), List.append_nil]
    obtain ⟨j, hj0, hjle, heq⟩ :=
      snappyDrive_bytesR sched hs fuel m rest acc (i + 1) false body.length (by omega)
    refine ⟨j + 1, by omega, by omega, ?_⟩
    rw [heq]
    have h1 : fuel - j = fuel + 1 - (j + 1) := by omega
    have h2 : i + 1 + j = i + (j + 1) := by omega
    rw [h1, h2]
  · -- original chunk
    have hm : m = body := hok
    subst hm
    rw [snappyDrive_step_none sched fuel i _ _ acc []
      (snappyRead_header_chunk_orig m rest o0 cl0 _ hlen), List.append_nil]
    obtain ⟨j, hj0, hjle, heq⟩ :=
      snappyDrive_limitR sched hs fuel m.length m rest acc (i + 1) true
        m.length rfl (by omega)
    refine ⟨j + 1, by omega, by omega, ?_⟩
    rw [heq]
    have h1 : fuel - j = fuel + 1 - (j + 1) := by omega
    have h2 : i + 1 + j = i + (j + 1) := by omega
    rw [h1, h2]

/-! ## Claims -/

/-- C1: for every source whose next 3 bytes, zero-extended to 32 bits and
read little-endian, equal `v`, `readHeader` of both decoder families sets
`isOriginal` to true exactly when bit 0 of `v` is 1, and sets `chunkLength`
to `v >>> 1`. -/
theorem claim_C1 (b0 b1 b2 : Nat) (rest : Bytes) (v : Nat)
    (h0 : b0 < 256) (h1 : b1 < 256) (h2 : b2 < 256)
    (hv : b0 + b1 * 256 + b2 * 65536 = v) :
    (∀ (inflate : Bytes → Bytes) (c : CompressionZlibDecoder),
      c.source = b0 :: b1 :: b2 :: rest →
      (CompressionZlibDecoder.readHeader inflate c).2.1.isOriginal = Nat.testBit v 0
      ∧ (CompressionZlibDecoder.readHeader inflate c).2.1.chunkLength = v >>> 1)
    ∧ (∀ c : CompressionSnappyDecoder,
      c.source = b0 :: b1 :: b2 :: rest →
      (CompressionSnappyDecoder.readHeader c).2.1.isOriginal = Nat.testBit v 0
      ∧ (CompressionSnappyDecoder.readHeader c).2.1.chunkLength = v >>> 1) := by
  subst hv
  have hbit : ((b0 + b1 * 256 + b2 * 65536) % 2 == 1)
      = Nat.testBit (b0 + b1 * 256 + b2 * 65536) 0 := by
    rcases Nat.mod_two_eq_zero_or_one (b0 + b1 * 256 + b2 * 65536) with h | h <;>
      simp [Nat.testBit_zero, h]
  have hlen : (b0 + b1 * 256 + b2 * 65536) / 2 = (b0 + b1 * 256 + b2 * 65536) >>> 1 := by
    rw [Nat.shiftRight_eq_div_pow]
  constructor
  · intro inflate c hc
    rw [zlibReadHeader_cons inflate b0 b1 b2 rest c hc]
    exact ⟨hbit, hlen⟩
  · intro c hc
    obtain ⟨ho, hl⟩ := snappyReadHeader_fields b0 b1 b2 rest c hc
    exact ⟨ho.trans hbit, hl.trans hlen⟩

/-- C1 witness: header bytes `[5, 0, 0]` give `v = 5`, an original chunk of
length 2, for both decoder families. -/
theorem claim_C1_witness :
    ((∀ (inflate : Bytes → Bytes) (c : CompressionZlibDecoder),
      c.source = 5 :: 0 :: 0 :: [] →
      (CompressionZlibDecoder.readHeader inflate c).2.1.isOriginal = Nat.testBit 5 0
      ∧ (CompressionZlibDecoder.readHeader inflate c).2.1.chunkLength = 5 >>> 1)
    ∧ (∀ c : CompressionSnappyDecoder,
      c.source = 5 :: 0 :: 0 :: [] →
      (CompressionSnappyDecoder.readHeader c).2.1.isOriginal = Nat.testBit 5 0
      ∧ (CompressionSnappyDecoder.readHeader c).2.1.chunkLength = 5 >>> 1)) :=
  claim_C1 5 0 0 [] 5 (by decide) (by decide) (by decide) (by decide)

/-- C2: encoding a pair `(isOriginal, chunkLength)` with `chunkLength < 2 ^ 23`
as the 3-byte little-endian representation of `(chunkLength <<< 1) ||| isOriginal`
and parsing it back with `readHeader` (either decoder family) returns exactly
that pair; and every header parsed from any 3 bytes has `chunkLength < 2 ^ 23`. -/
theorem claim_C2 :
    (∀ (inflate : Bytes → Bytes) (b : Bool) (len : Nat) (rest : Bytes), len < 2 ^ 23 →
      (CompressionZlibDecoder.readHeader inflate
          (CompressionZlib.Decoder (encodeHeader b len ++ rest))).2.1.isOriginal = b
      ∧ (CompressionZlibDecoder.readHeader inflate
          (CompressionZlib.Decoder (encodeHeader b len ++ rest))).2.1.chunkLength = len)
    ∧ (∀ (b : Bool) (len : Nat) (rest : Bytes), len < 2 ^ 23 →
      (CompressionSnappyDecoder.readHeader
          (CompressionSnappy.Decoder (encodeHeader b len ++ rest))).2.1.isOriginal = b
      ∧ (CompressionSnappyDecoder.readHeader
          (CompressionSnappy.Decoder (encodeHeader b len ++ rest))).2.1.chunkLength = len)
    ∧ (∀ (inflate : Bytes → Bytes) (b0 b1 b2 : Nat) (rest : Bytes)
        (c : CompressionZlibDecoder), b0 < 256 → b1 < 256 → b2 < 256 →
        c.source = b0 :: b1 :: b2 :: rest →
        (CompressionZlibDecoder.readHeader inflate c).2.1.chunkLength < 2 ^ 23)
    ∧ (∀ (b0 b1 b2 : Nat) (rest : Bytes) (c : CompressionSnappyDecoder),
        b0 < 256 → b1 < 256 → b2 < 256 → c.source = b0 :: b1 :: b2 :: rest →
        (CompressionSnappyDecoder.readHeader c).2.1.chunkLength < 2 ^ 23) := by
  have harith : ∀ (b : Bool) (len : Nat), len < 2 ^ 23 →
      ∀ v, v = len * 2 + (if b then 1 else 0) →
      ((v % 2 == 1) = b ∧ v / 2 = len) := by
    intro b len _ v hv
    cases b
    · have h2 : v % 2 = 0 := by simp at hv; omega
      have h3 : v / 2 = len := by simp at hv; omega
      simp [h2, h3]
    · have h2 : v % 2 = 1 := by simp at hv; omega
      have h3 : v / 2 = len := by simp at hv; omega
      simp [h2, h3]
  refine ⟨?_, ?_, ?_, ?_⟩
  · intro inflate b len rest hlen
    obtain ⟨b0, b1, b2, henc, hsum⟩ := encodeHeader_cons b len
    have hsrc : (CompressionZlib.Decoder (encodeHeader b len ++ rest)).source
        = b0 :: b1 :: b2 :: rest := by rw [henc]; rfl
    rw [zlibReadHeader_cons inflate b0 b1 b2 rest _ hsrc]
    exact harith b len hlen _ (hsum.trans (parseHeaderVal_encodeHeader b len hlen))
  · intro b len rest hlen
    obtain ⟨b0, b1, b2, henc, hsum⟩ := encodeHeader_cons b len
    have hsrc : (CompressionSnappy.Decoder (encodeHeader b len ++ rest)).source
        = b0 :: b1 :: b2 :: rest := by rw [henc]; rfl
    obtain ⟨ho, hl⟩ := snappyReadHeader_fields b0 b1 b2 rest _ hsrc
    obtain ⟨ho', hl'⟩ :=
      harith b len hlen _ (hsum.trans (parseHeaderVal_encodeHeader b len hlen))
    exact ⟨ho.trans ho', hl.trans hl'⟩
  · intro inflate b0 b1 b2 rest c h0 h1 h2 hc
    rw [zlibReadHeader_cons inflate b0 b1 b2 rest c hc]
    show (b0 + b1 * 256 + b2 * 65536) / 2 < 2 ^ 23
    omega
  · intro b0 b1 b2 rest c h0 h1 h2 hc
    rw [(snappyReadHeader_fields b0 b1 b2 rest c hc).2]
    omega

/-- C2 witness: the round-trip at `(true, 2)` (header bytes `[5, 0, 0]`) and
`(false, 1)`, and the 23-bit bound at header bytes `[5, 0, 0]`. -/
theorem claim_C2_witness :
    ((CompressionZlibDecoder.readHeader id
        (CompressionZlib.Decoder (encodeHeader true 2 ++ []))).2.1.isOriginal = true
     ∧ (CompressionZlibDecoder.readHeader id
        (CompressionZlib.Decoder (encodeHeader true 2 ++ []))).2.1.chunkLength = 2)
    ∧ ((CompressionSnappyDecoder.readHeader
        (CompressionSnappy.Decoder (encodeHeader false 1 ++ [7]))).2.1.isOriginal = false
     ∧ (CompressionSnappyDecoder.readHeader
        (CompressionSnappy.Decoder (encodeHeader false 1 ++ [7]))).2.1.chunkLength = 1)
    ∧ (CompressionZlibDecoder.readHeader id
        (CompressionZlib.Decoder [5, 0, 0])).2.1.chunkLength < 2 ^ 23
    ∧ (CompressionSnappyDecoder.readHeader
        (CompressionSnappy.Decoder [5, 0, 0])).2.1.chunkLength < 2 ^ 23 :=
  ⟨claim_C2.1 id true 2 [] (by norm_num),
   claim_C2.2.1 false 1 [7] (by norm_num),
   claim_C2.2.2.1 id 5 0 0 [] _ (by decide) (by decide) (by decide) rfl,
   claim_C2.2.2.2 5 0 0 [] _ (by decide) (by decide) (by decide) rfl⟩

/-- C4: when the active chunk reader of the Deflate-family decoder reports
`io.EOF`, `Read` returns the bytes read so far with no error and discards
the chunk reader; and whenever the chunk reader is absent, `Read` parses the
next chunk header. -/
theorem claim_C4 :
    (∀ (inflate : Bytes → Bytes) (c : CompressionZlibDecoder) (cap : Nat)
        (r r' : ZlibChunkReader) (out src' : Bytes),
      c.decoded = some r →
      zlibChunkRead inflate r c.source cap = (out, r', src', some .eof) →
      CompressionZlibDecoder.Read inflate c cap
        = (out, { c with source := src', decoded := none }, none))
    ∧ (∀ (inflate : Bytes → Bytes) (c : CompressionZlibDecoder) (cap : Nat),
      c.decoded = none →
      CompressionZlibDecoder.Read inflate c cap
        = CompressionZlibDecoder.readHeader inflate c) := by
  constructor
  · intro inflate c cap r r' out src' hdec hread
    obtain ⟨src, dec, o, n⟩ := c
    dsimp only at hdec hread ⊢
    subst hdec
    simp only [CompressionZlibDecoder.Read, hread, if_true]
  · intro inflate c cap hdec
    obtain ⟨src, dec, o, n⟩ := c
    dsimp only at hdec ⊢
    subst hdec
    rfl

/-- C4 witness: an exhausted `io.LimitReader` chunk reader reports `io.EOF`
and the decoder's `Read` discards it with no error. -/
theorem claim_C4_witness :
    zlibChunkRead id (.limitR 0) ([] : Bytes) 1 = ([], .limitR 0, [], some .eof)
    ∧ CompressionZlibDecoder.Read id ⟨[], some (.limitR 0), false, 0⟩ 1
      = ([], { (⟨[], some (.limitR 0), false, 0⟩ : CompressionZlibDecoder) with
               source := [], decoded := none }, none) :=
  ⟨by decide,
   claim_C4.1 id ⟨[], some (.limitR 0), false, 0⟩ 1 (.limitR 0) (.limitR 0) [] [] rfl
     (by decide)⟩

/-- C5 counterexample: the compressed chunk `[0, 0, 0]` (chunkLength 0; the
empty body is not a valid Snappy block) makes the caller's `Read` return
`snappy.ErrCorrupt` — the corruption error is propagated, not swallowed as
end-of-chunk. -/
theorem claim_C5_counterexample :
    CompressionSnappyDecoder.Read (CompressionSnappy.Decoder [0, 0, 0]) 10
      = ([], { source := [], decoded := none, isOriginal := false, chunkLength := 0 },
         some .errCorrupt) := by decide

/-- C5 (amended): for every compressed chunk whose buffered body fails
`snappy.Decode`, the decode error is returned to the caller by the `Read`
call that parses the chunk header (the `ErrCorrupt`-to-end-of-chunk
translation in `Read` applies only to the already-decoded buffer reader and
never fires for this error). -/
theorem claim_C5_amended (c : CompressionSnappyDecoder) (cap : Nat) (e : GoErr)
    (hdec : c.decoded = none) (hne : c.source ≠ [])
    (hcomp : parseHeaderVal (c.source.take 3) % 2 = 0)
    (hbad : snappyDecode ((c.source.drop 3).take (parseHeaderVal (c.source.take 3) / 2))
        = .error e) :
    CompressionSnappyDecoder.Read c cap
      = ([], { c with
               source := (c.source.drop 3).drop (parseHeaderVal (c.source.take 3) / 2),
               isOriginal := false,
               chunkLength := parseHeaderVal (c.source.take 3) / 2 }, some e) := by
  obtain ⟨src, dec, o, n⟩ := c
  simp only at hdec hcomp hbad ⊢
  subst hdec
  unfold CompressionSnappyDecoder.Read CompressionSnappyDecoder.readHeader
  have hemp : src.isEmpty = false := by
    cases src with
    | nil => exact absurd rfl hne
    | cons a t => rfl
  simp only [bytesReaderRead, hemp, Bool.false_eq_true, if_false, hcomp, hbad]
  rfl

/-- C5 amended witness: the corrupt chunk `[0, 0, 0]` instantiates the
amended claim. -/
theorem claim_C5_amended_witness :
    CompressionSnappyDecoder.Read (CompressionSnappy.Decoder [0, 0, 0]) 7
      = ([], { source := [], decoded := none, isOriginal := false, chunkLength := 0 },
         some .errCorrupt) :=
  claim_C5_amended (CompressionSnappy.Decoder [0, 0, 0]) 7 .errCorrupt rfl
    (by decide) (by decide) rfl

/-- C6 (code behavior at the failing input): with only the 2 bytes
`[0x05, 0x00]` available at a chunk boundary, `readHeader` of both decoder
families returns no error at all: the short read is not detected, the
zero-padded partial header parses as an original chunk of length 2. The
spec's `TruncatedHeader` failure does not exist in the code. -/
theorem claim_C6_failing :
    CompressionZlibDecoder.Read id (CompressionZlib.Decoder [5, 0]) 10
      = ([], { source := [], decoded := some (.limitR 2), isOriginal := true,
               chunkLength := 2 }, none)
    ∧ CompressionSnappyDecoder.Read (CompressionSnappy.Decoder [5, 0]) 10
      = ([], { source := [], decoded := some (.limitR 2), isOriginal := true,
               chunkLength := 2 }, none) := by
  constructor <;> decide

/-- C7 (code behavior at the failing input): a compressed Snappy chunk
declaring `chunkLength = 5` over a source holding only the 3 body bytes
`[1, 0, 65]` (a complete Snappy block) is decoded silently: `readHeader`
returns no error and the stream decodes to `[65]`. The spec's
`TruncatedChunk` failure does not exist in the code. -/
theorem claim_C7_failing :
    (CompressionSnappyDecoder.Read (CompressionSnappy.Decoder [10, 0, 0, 1, 0, 65]) 10).2.2
      = none
    ∧ snappyDrive (fun _ => 10) 10 0 (CompressionSnappy.Decoder [10, 0, 0, 1, 0, 65]) []
      = some [65] := by
  constructor <;> decide

/-- C3: for either codec family, an original (`isOriginal = true`) chunk is
read back verbatim: the caller loop emits exactly the next `chunkLength`
bytes of the source with no decompression, leaving the loop at the next
chunk boundary; and the stream `[0x05, 0x00, 0x00, 0x41, 0x42]` decodes to
`"AB"` (`[65, 66]`) under both decoders. -/
theorem claim_C3 :
    (∀ (inflate : Bytes → Bytes) (sched : Nat → Nat) (fuel : Nat)
        (body rest acc : Bytes) (i : Nat) (o0 : Bool) (cl0 : Nat),
      (∀ k, 0 < sched k) → body.length < 2 ^ 23 → body.length + 2 ≤ fuel →
      ∃ j, 0 < j ∧ j ≤ body.length + 2 ∧
        zlibDrive inflate sched fuel i ⟨encodeChunk true body ++ rest, none, o0, cl0⟩ acc
          = zlibDrive inflate sched (fuel - j) (i + j)
              ⟨rest, none, true, body.length⟩ (acc ++ body))
    ∧ (∀ (sched : Nat → Nat) (fuel : Nat) (body rest acc : Bytes) (i : Nat)
        (o0 : Bool) (cl0 : Nat),
      (∀ k, 0 < sched k) → body.length < 2 ^ 23 → body.length + 2 ≤ fuel →
      ∃ j, 0 < j ∧ j ≤ body.length + 2 ∧
        snappyDrive sched fuel i ⟨encodeChunk true body ++ rest, none, o0, cl0⟩ acc
          = snappyDrive sched (fuel - j) (i + j)
              ⟨rest, none, true, body.length⟩ (acc ++ body))
    ∧ zlibDrive id (fun _ => 10) 10 0 (CompressionZlib.Decoder [5, 0, 0, 65, 66]) []
        = some [65, 66]
    ∧ snappyDrive (fun _ => 10) 10 0 (CompressionSnappy.Decoder [5, 0, 0, 65, 66]) []
        = some [65, 66] := by
  refine ⟨?_, ?_, by decide, by decide⟩
  · intro inflate sched fuel body rest acc i o0 cl0 hsched hlen hfuel
    exact zlibDrive_chunk inflate sched hsched fuel true body rest acc i o0 cl0 hlen hfuel
  · intro sched fuel body rest acc i o0 cl0 hsched hlen hfuel
    exact snappyDrive_chunk sched hsched fuel true body rest acc body i o0 cl0 hlen rfl
      hfuel

/-- C3 witness: the original chunk `[65, 66]` drained with 1-byte reads
under both codec families. -/
theorem claim_C3_witness :
    (∃ j, 0 < j ∧ j ≤ ([65, 66] : Bytes).length + 2 ∧
      zlibDrive id (fun _ => 1) 4 0 ⟨encodeChunk true [65, 66] ++ [], none, false, 0⟩ []
        = zlibDrive id (fun _ => 1) (4 - j) (0 + j)
            ⟨[], none, true, ([65, 66] : Bytes).length⟩ ([] ++ [65, 66]))
    ∧ (∃ j, 0 < j ∧ j ≤ ([65, 66] : Bytes).length + 2 ∧
      snappyDrive (fun _ => 1) 4 0 ⟨encodeChunk true [65, 66] ++ [], none, false, 0⟩ []
        = snappyDrive (fun _ => 1) (4 - j) (0 + j)
            ⟨[], none, true, ([65, 66] : Bytes).length⟩ ([] ++ [65, 66])) :=
  ⟨claim_C3.1 id (fun _ => 1) 4 [65, 66] [] [] 0 false 0 (fun _ => Nat.one_pos) (by decide)
      (by decide),
   claim_C3.2.1 (fun _ => 1) 4 [65, 66] [] [] 0 false 0 (fun _ => Nat.one_pos) (by decide)
      (by decide)⟩

/-- C8: decoding the concatenation of two valid chunks (any mix of original
and compressed, under either codec family) yields the concatenation of the
two chunks' decoded contents, for every schedule of positive caller buffer
sizes — so the total output is independent of how the caller sizes its
reads. -/
theorem claim_C8 :
    (∀ (inflate : Bytes → Bytes) (sched : Nat → Nat) (o1 o2 : Bool)
        (c1 c2 : Bytes) (fuel : Nat),
      (∀ k, 0 < sched k) → c1.length < 2 ^ 23 → c2.length < 2 ^ 23 →
      (cond o1 c1 (inflate c1)).length + (cond o2 c2 (inflate c2)).length + 5 ≤ fuel →
      zlibDrive inflate sched fuel 0
          (CompressionZlib.Decoder (encodeChunk o1 c1 ++ encodeChunk o2 c2)) []
        = some (cond o1 c1 (inflate c1) ++ cond o2 c2 (inflate c2)))
    ∧ (∀ (sched : Nat → Nat) (o1 o2 : Bool) (c1 m1 c2 m2 : Bytes) (fuel : Nat),
      (∀ k, 0 < sched k) → c1.length < 2 ^ 23 → c2.length < 2 ^ 23 →
      SnappyChunkOk o1 c1 m1 → SnappyChunkOk o2 c2 m2 →
      m1.length + m2.length + 5 ≤ fuel →
      snappyDrive sched fuel 0
          (CompressionSnappy.Decoder (encodeChunk o1 c1 ++ encodeChunk o2 c2)) []
        = some (m1 ++ m2)) := by
  constructor
  · intro inflate sched o1 o2 c1 c2 fuel hsched h1 h2 hfuel
    show zlibDrive inflate sched fuel 0
        ⟨encodeChunk o1 c1 ++ encodeChunk o2 c2, none, false, 0⟩ []
      = some (cond o1 c1 (inflate c1) ++ cond o2 c2 (inflate c2))
    obtain ⟨j1, hj10, hj1le, heq1⟩ :=
      zlibDrive_chunk inflate sched hsched fuel o1 c1 (encodeChunk o2 c2) [] 0 false 0
        h1 (by omega)
    rw [heq1]
    obtain ⟨j2, hj20, hj2le, heq2⟩ :=
      zlibDrive_chunk inflate sched hsched (fuel - j1) o2 c2 []
        ([] ++ cond o1 c1 (inflate c1)) (0 + j1) o1 c1.length h2 (by omega)
    rw [List.append_nil] at heq2
    rw [heq2]
    obtain ⟨f, hf⟩ : ∃ f, fuel - j1 - j2 = f + 1 := ⟨fuel - j1 - j2 - 1, by omega⟩
    rw [hf, zlibDrive_end]
    simp
  · intro sched o1 o2 c1 m1 c2 m2 fuel hsched h1 h2 hok1 hok2 hfuel
    show snappyDrive sched fuel 0
        ⟨encodeChunk o1 c1 ++ encodeChunk o2 c2, none, false, 0⟩ []
      = some (m1 ++ m2)
    obtain ⟨j1, hj10, hj1le, heq1⟩ :=
      snappyDrive_chunk sched hsched fuel o1 c1 (encodeChunk o2 c2) [] m1 0 false 0
        h1 hok1 (by omega)
    rw [heq1]
    obtain ⟨j2, hj20, hj2le, heq2⟩ :=
      snappyDrive_chunk sched hsched (fuel - j1) o2 c2 [] ([] ++ m1) m2 (0 + j1) o1
        c1.length h2 hok2 (by omega)
    rw [List.append_nil] at heq2
    rw [heq2]
    obtain ⟨f, hf⟩ : ∃ f, fuel - j1 - j2 = f + 1 := ⟨fuel - j1 - j2 - 1, by omega⟩
    rw [hf, snappyDrive_end]
    simp

/-- C8 witness: a compressed chunk followed by an original chunk, drained
with 1-byte reads, for both codec families (`inflate = id`; the Snappy
compressed body `[1, 0, 65]` is the Snappy encoding of `[65]`). -/
theorem claim_C8_witness :
    zlibDrive id (fun _ => 1) 10 0
        (CompressionZlib.Decoder (encodeChunk false [65] ++ encodeChunk true [66, 67])) []
      = some (cond false [65] (id [65]) ++ cond true [66, 67] (id [66, 67]))
    ∧ snappyDrive (fun _ => 1) 10 0
        (CompressionSnappy.Decoder (encodeChunk false [1, 0, 65] ++ encodeChunk true [66]))
        []
      = some ([65] ++ [66]) :=
  ⟨claim_C8.1 id (fun _ => 1) false true [65] [66, 67] 10 (fun _ => Nat.one_pos) (by decide)
      (by decide) (by decide),
   claim_C8.2 (fun _ => 1) false true [1, 0, 65] [65] [66] [66] 10 (fun _ => Nat.one_pos)
      (by decide) (by decide) rfl rfl (by decide)⟩

/-- `snappy.Decode` fails only with `ErrCorrupt` or
`errUnsupportedLiteralLength`, never with `io.EOF`. -/
theorem snappyDecode_error_cases (src : Bytes) (e : GoErr)
    (h : snappyDecode src = Except.error e) :
    e = GoErr.errCorrupt ∨ e = GoErr.errUnsupportedLiteral := by
  unfold snappyDecode at h
  rcases hd : decodedLen src with e' | ⟨dLen, s⟩
  · rw [hd] at h
    have he' : e' = e := by
      simpa using h
    unfold decodedLen at hd
    dsimp only at hd
    split at hd
    · left
      have : GoErr.errCorrupt = e' := by simpa using hd
      exact (this.trans he').symm
    · simp at hd
  · rw [hd] at h
    dsimp only at h
    rcases hl : snappyDecodeLoop (src.drop s) dLen ((src.drop s).length + 1) 0 [] with
      ⟨code, dst⟩
    rw [hl] at h
    match code with
    | 0 => simp at h
    | 1 =>
      left
      have : GoErr.errCorrupt = e := by simpa using h
      exact this.symm
    | 2 =>
      right
      have : GoErr.errUnsupportedLiteral = e := by simpa using h
      exact this.symm
    | (k + 3) =>
      left
      have : GoErr.errCorrupt = e := by simpa using h
      exact this.symm

/-- A failed Snappy header read never reports `io.EOF` when header bytes
were available. -/
theorem snappyReadHeader_err_ne_eof (c : CompressionSnappyDecoder)
    (hne : c.source ≠ []) :
    (CompressionSnappyDecoder.readHeader c).2.2 ≠ some GoErr.eof := by
  obtain ⟨src, dec, o, cl⟩ := c
  have hemp : src.isEmpty = false := by
    cases hs : src with
    | nil => exact absurd hs hne
    | cons a t => rfl
  unfold CompressionSnappyDecoder.readHeader
  simp only [bytesReaderRead, hemp, Bool.false_eq_true, if_false]
  split
  · split
    · rename_i e heq
      rcases snappyDecode_error_cases _ _ heq with h | h <;> simp [h]
    · simp
  · simp

/-- The Zlib decoder's `Read` reports `io.EOF` exactly at a clean chunk
boundary with no bytes left. -/
theorem zlibRead_eof_iff (inflate : Bytes → Bytes) (c : CompressionZlibDecoder)
    (cap : Nat) :
    (CompressionZlibDecoder.Read inflate c cap).2.2 = some GoErr.eof
      ↔ c.decoded = none ∧ c.source = [] := by
  obtain ⟨src, dec, o, cl⟩ := c
  cases dec with
  | none =>
    cases src with
    | nil => simp [zlibRead_none_nil]
    | cons a t =>
      simp [CompressionZlibDecoder.Read, CompressionZlibDecoder.readHeader, bytesReaderRead]
  | some r =>
    rcases hq : zlibChunkRead inflate r src cap with ⟨out, r', src', err⟩
    by_cases he : err = some GoErr.eof
    · subst he
      simp [CompressionZlibDecoder.Read, hq]
    · simp [CompressionZlibDecoder.Read, hq, he]

/-- The Snappy decoder's `Read` reports `io.EOF` exactly at a clean chunk
boundary with no bytes left. -/
theorem snappyRead_eof_iff (c : CompressionSnappyDecoder) (cap : Nat) :
    (CompressionSnappyDecoder.Read c cap).2.2 = some GoErr.eof
      ↔ c.decoded = none ∧ c.source = [] := by
  obtain ⟨src, dec, o, cl⟩ := c
  cases dec with
  | none =>
    cases src with
    | nil => simp [snappyRead_none_nil]
    | cons a t =>
      have h := snappyReadHeader_err_ne_eof ⟨a :: t, none, o, cl⟩ (by simp)
      constructor
      · intro hcontra
        exact absurd hcontra h
      · rintro ⟨-, hcontra⟩
        exact absurd hcontra (List.cons_ne_nil a t)
  | some r =>
    rcases hq : snappyChunkRead r src cap with ⟨out, r', src', err⟩
    by_cases he : err = some GoErr.eof ∨ err = some GoErr.errCorrupt
    · simp [CompressionSnappyDecoder.Read, hq, he]
    · simp [CompressionSnappyDecoder.Read, hq, he]
      intro hcontra
      exact absurd (Or.inl hcontra) he

/-- C9: a zero-byte source decodes to zero output bytes with only a clean
end-of-stream signal, under both decoder families; and `Read` signals
end-of-stream (`io.EOF`) exactly when the header parser finds no bytes at a
chunk boundary (no active chunk reader and an empty source). -/
theorem claim_C9 :
    (∀ (inflate : Bytes → Bytes) (sched : Nat → Nat) (fuel i : Nat),
      zlibDrive inflate sched (fuel + 1) i (CompressionZlib.Decoder []) [] = some [])
    ∧ (∀ (sched : Nat → Nat) (fuel i : Nat),
      snappyDrive sched (fuel + 1) i (CompressionSnappy.Decoder []) [] = some [])
    ∧ (∀ (inflate : Bytes → Bytes) (c : CompressionZlibDecoder) (cap : Nat),
      (CompressionZlibDecoder.Read inflate c cap).2.2 = some GoErr.eof
        ↔ c.decoded = none ∧ c.source = [])
    ∧ (∀ (c : CompressionSnappyDecoder) (cap : Nat),
      (CompressionSnappyDecoder.Read c cap).2.2 = some GoErr.eof
        ↔ c.decoded = none ∧ c.source = []) :=
  ⟨fun inflate sched fuel i => zlibDrive_end inflate sched fuel i [] false 0,
   fun sched fuel i => snappyDrive_end sched fuel i [] false 0,
   zlibRead_eof_iff, snappyRead_eof_iff⟩

/-- Draining a plain `bytes.Reader` yields its contents. -/
theorem bytesDrive_drain (sched : Nat → Nat) (hs : ∀ k, 0 < sched k) :
    ∀ (fuel : Nat) (s acc : Bytes) (i : Nat), s.length + 1 ≤ fuel →
      bytesDrive sched fuel i s acc = some (acc ++ s) := by
  intro fuel
  induction fuel with
  | zero => intro s acc i hf; omega
  | succ fuel ih =>
    intro s acc i hf
    cases s with
    | nil => simp [bytesDrive, bytesReaderRead]
    | cons a t =>
      have hstep : bytesDrive sched (fuel + 1) i (a :: t) acc
          = bytesDrive sched fuel (i + 1) ((a :: t).drop (sched i))
              (acc ++ (a :: t).take (sched i)) := by
        simp [bytesDrive, bytesReaderRead]
      rw [hstep, ih ((a :: t).drop (sched i)) (acc ++ (a :: t).take (sched i)) (i + 1)
        (by rw [List.length_drop]; have := hs i; simp at hf ⊢; omega)]
      rw [List.append_assoc, List.take_append_drop]

/-- C10: `CompressionNone.Decoder` is the identity on the source reader, so
reading the decoded stream yields the underlying bytes verbatim — no 3-byte
header parsing, no chunk framing. -/
theorem claim_C10 :
    (∀ r : Bytes, CompressionNone.Decoder r = r)
    ∧ (∀ (sched : Nat → Nat) (r : Bytes) (fuel i : Nat), (∀ k, 0 < sched k) →
        r.length + 1 ≤ fuel →
        bytesDrive sched fuel i (CompressionNone.Decoder r) [] = some r) := by
  constructor
  · intro r
    rfl
  · intro sched r fuel i hs hf
    have h := bytesDrive_drain sched hs fuel r [] i hf
    simpa using h

/-- C10 witness: the 2-byte source `[1, 2]` passes through unchanged. -/
theorem claim_C10_witness :
    CompressionNone.Decoder [1, 2] = [1, 2]
    ∧ bytesDrive (fun _ => 1) 3 0 (CompressionNone.Decoder [1, 2]) [] = some [1, 2] :=
  ⟨claim_C10.1 [1, 2],
   claim_C10.2 (fun _ => 1) [1, 2] 3 0 (fun _ => Nat.one_pos) (by decide)⟩

end Orc
